import Mathlib

/-
Verification of the GridDown HTTP server (scripts/griddown-server.py).

The server wraps a generic static file server and injects cache-control
headers computed from the request path.  We embed the header policy of
GridDownHandler.end_headers, the log filter of GridDownHandler.log_message,
and the startup validation of main as pure Lean functions.  Python strings
are modelled as List Char; the helpers takeBefore, basenameOf and
splitextExt embed str.split(c)[0], os.path.basename and the extension
component of os.path.splitext for POSIX paths.
-/

namespace GridDown

/-- Embeds Python str.split(c)[0]: the prefix of the list strictly before the
first occurrence of the character c, or the whole list when c does not occur. -/
def takeBefore (c : Char) : List Char → List Char
  | [] => []
  | x :: xs => if x = c then [] else x :: takeBefore c xs

/-- Embeds os.path.basename for POSIX paths: the suffix of the path after the
last slash, computed as in posixpath.basename. -/
def basenameOf (p : List Char) : List Char :=
  (p.reverse.takeWhile (· != '/')).reverse

/-- The final path segment with its leading dots removed, as in the
leading-dot skipping loop of genericpath, where the extension search of
os.path.splitext starts. -/
def afterDots (b : List Char) : List Char :=
  (basenameOf b).dropWhile (· == '.')

/-- Embeds the extension component of os.path.splitext for POSIX paths: the
text from the last dot of the final path segment, including the dot, and the
empty string when every character of the segment before that dot is itself a
dot (leading dots never start an extension). -/
def splitextExt (p : List Char) : List Char :=
  if ('.' : Char) ∈ afterDots p then
    '.' :: ((afterDots p).reverse.takeWhile (· != '.')).reverse
  else []

/-- The constant NO_CACHE_FILES of the server: basenames that must never be
served from the browser HTTP cache, sw.js and manifest.json. -/
def NO_CACHE_FILES : List (List Char) :=
  [['s', 'w', '.', 'j', 's'],
   ['m', 'a', 'n', 'i', 'f', 'e', 's', 't', '.', 'j', 's', 'o', 'n']]

/-- The constant REVALIDATE_EXTENSIONS of the server: extensions that get a
revalidation cache header, .js, .css and .html. -/
def REVALIDATE_EXTENSIONS : List (List Char) :=
  [['.', 'j', 's'], ['.', 'c', 's', 's'], ['.', 'h', 't', 'm', 'l']]

/-- The three headers sent for a basename in NO_CACHE_FILES. -/
def noCacheHeaders : List (String × String) :=
  [("Cache-Control", "no-cache, no-store, must-revalidate"),
   ("Pragma", "no-cache"),
   ("Expires", "0")]

/-- The single header sent for an extension in REVALIDATE_EXTENSIONS. -/
def revalidateHeaders : List (String × String) :=
  [("Cache-Control", "no-cache")]

/-- The query and fragment stripping of end_headers: first the part of the
path before the first question mark, then the part of that before the first
hash mark. -/
def stripQueryFragment (p : List Char) : List Char :=
  takeBefore '#' (takeBefore '?' p)

/-- The Header Policy of GridDownHandler.end_headers: the cache-control
headers injected for a request path.  The basename of the path with query
string and fragment stripped is tested against NO_CACHE_FILES first; only
otherwise is its splitext extension tested against REVALIDATE_EXTENSIONS. -/
def policyHeaders (path : List Char) : List (String × String) :=
  if basenameOf (stripQueryFragment path) ∈ NO_CACHE_FILES then
    noCacheHeaders
  else if splitextExt (basenameOf (stripQueryFragment path)) ∈ REVALIDATE_EXTENSIONS then
    revalidateHeaders
  else []

/-- Embeds GridDownHandler.end_headers acting on the buffered response
headers: the policy headers for the request path are appended to the headers
already buffered, then the superclass flushes them all (modelled by returning
the final header list). -/
def end_headers (path : List Char) (sent : List (String × String)) :
    List (String × String) :=
  sent ++ policyHeaders path

/-- Embeds one finalized response of the handler: the underlying static
server chose a status code and base headers (Content-Type, Last-Modified,
and so on) from the filesystem; end_headers then appends the policy headers.
The status code is carried through untouched. -/
def handleResponse (path : List Char) (status : Nat)
    (baseHeaders : List (String × String)) : Nat × List (String × String) :=
  (status, end_headers path baseHeaders)

/-- Embeds str.startswith for a single character: true when the string is
nonempty and begins with c, false on the empty string. -/
def startsWithChar (c : Char) (s : List Char) : Bool :=
  match s with
  | [] => false
  | x :: _ => x == c

/-- Embeds GridDownHandler.log_message: args[1] if len(args) > 1 else the
empty string is taken as the status, and the line is emitted exactly when
that status starts with the character '4' or the character '5'. -/
def log_message_emits (args : List (List Char)) : Bool :=
  startsWithChar '4' (args.getD 1 []) || startsWithChar '5' (args.getD 1 [])

/-- The effective per-request logging decision: main restores the default
log_message of SimpleHTTPRequestHandler when --verbose is given, so every
line is emitted; otherwise the filtered log_message_emits decides. -/
def logEmitted (verbose : Bool) (args : List (List Char)) : Bool :=
  if verbose then true else log_message_emits args

/-- Observable startup actions of main after argument parsing. -/
inductive StartupEvent where
  | printLine (line : String)
  | exitProcess (code : Nat)
  | changeDir (dir : String)
  | bindSocket (host : String) (port : Nat)
  | serveForever
deriving DecidableEq

/-- Embeds the body of main after the serve directory is resolved, with the
filesystem abstracted to the boolean swjsPresent, the value of
os.path.isfile(os.path.join(serve_dir, sw.js)).  When the marker file is
missing, main prints the two error lines and calls sys.exit(1) before
os.chdir and before HTTPServer binds the socket; when it is present, main
changes directory, builds the server (binding 0.0.0.0 at the port), prints
the banner and serves forever. -/
def mainStartup (swjsPresent : Bool) (serveDir : String) (port : Nat) :
    List StartupEvent :=
  if swjsPresent then
    [StartupEvent.changeDir serveDir,
     StartupEvent.bindSocket "0.0.0.0" port,
     StartupEvent.printLine "GridDown server v1.0",
     StartupEvent.printLine ("Serving: " ++ serveDir),
     StartupEvent.printLine ("URL:     http://localhost:" ++ toString port),
     StartupEvent.printLine "",
     StartupEvent.printLine
       "Cache-Control: no-cache, no-store applied to: manifest.json, sw.js",
     StartupEvent.printLine
       "Cache-Control: no-cache (revalidate) applied to: .css, .html, .js",
     StartupEvent.printLine "Press Ctrl+C to stop.",
     StartupEvent.serveForever]
  else
    [StartupEvent.printLine ("Error: sw.js not found in " ++ serveDir),
     StartupEvent.printLine "Make sure you\x27re serving the GridDown directory.",
     StartupEvent.exitProcess 1]

/-- Spec notion for comparison with splitextExt: the text after the last dot
of a basename, including the dot, and empty when the basename has no dot. -/
def suffixFromLastDot (b : List Char) : List Char :=
  if ('.' : Char) ∈ b then '.' :: (b.reverse.takeWhile (· != '.')).reverse
  else []

/-- Characters of the prefix before a separator are characters of the list. -/
lemma mem_of_mem_takeBefore {x c : Char} {s : List Char}
    (h : x ∈ takeBefore c s) : x ∈ s := by
  induction s with
  | nil => simp [takeBefore] at h
  | cons y ys ih =>
    by_cases hy : y = c
    · simp [takeBefore, hy] at h
    · rw [takeBefore, if_neg hy] at h
      rcases List.mem_cons.mp h with h | h
      · exact h ▸ List.mem_cons_self y ys
      · exact List.mem_cons_of_mem y (ih h)

/-- When the separator does not occur, takeBefore is the identity. -/
lemma takeBefore_of_not_mem {c : Char} {s : List Char} (h : c ∉ s) :
    takeBefore c s = s := by
  induction s with
  | nil => rfl
  | cons y ys ih =>
    have hy : y ≠ c := by rintro rfl; exact h (List.mem_cons_self y ys)
    have h2 : c ∉ ys := fun m => h (List.mem_cons_of_mem y m)
    simp [takeBefore, hy, ih h2]

/-- A head different from the separator passes through takeBefore. -/
lemma takeBefore_cons_ne {c x : Char} (h : x ≠ c) (xs : List Char) :
    takeBefore c (x :: xs) = x :: takeBefore c xs := by
  simp [takeBefore, h]

/-- Appending the separator and anything after it does not change takeBefore. -/
lemma takeBefore_append_cons (c : Char) (p s : List Char) :
    takeBefore c (p ++ c :: s) = takeBefore c p := by
  induction p with
  | nil => simp [takeBefore]
  | cons y ys ih => by_cases hy : y = c <;> simp [takeBefore, hy, ih]

/-- takeBefore over an append: the suffix only matters when the separator is
absent from the prefix. -/
lemma takeBefore_append (c : Char) (p q : List Char) :
    takeBefore c (p ++ q) =
      if c ∈ p then takeBefore c p else p ++ takeBefore c q := by
  induction p with
  | nil => simp [takeBefore]
  | cons y ys ih =>
    by_cases hy : y = c
    · subst hy
      simp [takeBefore]
    · by_cases hm : c ∈ ys <;>
        simp [takeBefore, hy, ih, hm, Ne.symm hy]

/-- takeWhile passes over a block on which the predicate holds everywhere. -/
lemma takeWhile_append_of_all {p : Char → Bool} {l t : List Char}
    (h : ∀ x ∈ l, p x = true) :
    (l ++ t).takeWhile p = l ++ t.takeWhile p := by
  induction l with
  | nil => simp
  | cons y ys ih =>
    have hy : p y = true := h y (List.mem_cons_self y ys)
    have h2 : ∀ x ∈ ys, p x = true := fun x hx => h x (List.mem_cons_of_mem y hx)
    simp [List.takeWhile_cons, hy, ih h2]

/-- takeWhile stops inside a block that contains a predicate failure, so the
part appended after the block is irrelevant. -/
lemma takeWhile_append_of_exists_not {p : Char → Bool} {l t : List Char}
    (h : ∃ x ∈ l, p x = false) :
    (l ++ t).takeWhile p = l.takeWhile p := by
  induction l with
  | nil => simp at h
  | cons y ys ih =>
    by_cases hy : p y = true
    · rcases h with ⟨x, hx, hpx⟩
      rcases List.mem_cons.mp hx with rfl | hx2
      · rw [hpx] at hy; cases hy
      · simp [List.takeWhile_cons, hy, ih ⟨x, hx2, hpx⟩]
    · have hy2 : p y = false := by
        cases hpy : p y
        · rfl
        · exact absurd hpy hy
      simp [List.takeWhile_cons, hy2]

/-- takeWhile keeps a list on which the predicate holds everywhere. -/
lemma takeWhile_eq_self_of_all {p : Char → Bool} {l : List Char}
    (h : ∀ x ∈ l, p x = true) : l.takeWhile p = l := by
  have := takeWhile_append_of_all (t := ([] : List Char)) h
  simpa using this

/-- A slash-free path is its own basename. -/
lemma basenameOf_of_not_mem_slash {b : List Char} (h : ('/' : Char) ∉ b) :
    basenameOf b = b := by
  unfold basenameOf
  rw [takeWhile_eq_self_of_all ?_, List.reverse_reverse]
  intro x hx
  have hxb : x ≠ '/' := fun e => h (e ▸ List.mem_reverse.mp hx)
  simpa using hxb

/-- The basename of a slash followed by a slash-free remainder is that
remainder. -/
lemma basenameOf_cons_slash {b : List Char} (h : ('/' : Char) ∉ b) :
    basenameOf ('/' :: b) = b := by
  unfold basenameOf
  rw [List.reverse_cons]
  rw [takeWhile_append_of_all ?_]
  · simp
  · intro x hx
    have hxb : x ≠ '/' := fun e => h (e ▸ List.mem_reverse.mp hx)
    simpa using hxb

/-- A dotfile, a leading dot followed by a dot-free remainder, has the empty
splitext extension. -/
lemma splitextExt_dotfile {rest : List Char} (hd : ('.' : Char) ∉ rest)
    (hs : ('/' : Char) ∉ rest) :
    splitextExt ('.' :: rest) = [] := by
  have hslash : ('/' : Char) ∉ ('.' :: rest) := by
    intro m
    rcases List.mem_cons.mp m with m | m
    · exact absurd m (by decide)
    · exact hs m
  have hbn : basenameOf ('.' :: rest) = '.' :: rest :=
    basenameOf_of_not_mem_slash hslash
  have hdw : ('.' : Char) ∉ rest.dropWhile (· == '.') :=
    fun m => hd ((List.dropWhile_sublist _).subset m)
  have hstep : ('.' :: rest).dropWhile (fun x => x == '.') =
      rest.dropWhile (fun x => x == '.') := by
    simp [List.dropWhile_cons]
  unfold splitextExt afterDots
  rw [hbn, hstep, if_neg hdw]

/-- A dotfile name is neither sw.js nor manifest.json. -/
lemma dotfile_not_no_cache {r : List Char} : ('.' :: r) ∉ NO_CACHE_FILES := by
  intro h
  simp only [NO_CACHE_FILES, List.mem_cons, List.not_mem_nil, or_false] at h
  rcases h with h | h
  · injection h with h1 _
    exact absurd h1 (by decide)
  · injection h with h1 _
    exact absurd h1 (by decide)

/-- On a slash-free name in which a dot survives the removal of leading dots,
the splitext extension is exactly the text from the last dot. -/
lemma splitextExt_eq_suffix {b : List Char} (hs : ('/' : Char) ∉ b)
    (hd : ('.' : Char) ∈ b.dropWhile (· == '.')) :
    splitextExt b = suffixFromLastDot b := by
  have hbn : basenameOf b = b := basenameOf_of_not_mem_slash hs
  have had : afterDots b = b.dropWhile (· == '.') := by
    unfold afterDots
    rw [hbn]
  have hdotb : ('.' : Char) ∈ b := (List.dropWhile_sublist _).subset hd
  unfold splitextExt suffixFromLastDot
  rw [had, if_pos hd, if_pos hdotb]
  congr 2
  conv_rhs => rw [← List.takeWhile_append_dropWhile (fun x => x == '.') b]
  rw [List.reverse_append]
  rw [takeWhile_append_of_exists_not ⟨'.', List.mem_reverse.mpr hd, by simp⟩]

/-- Two different characters cannot both start the same string. -/
lemma startsWithChar_unique {c d : Char} {s : List Char}
    (hc : startsWithChar c s = true) (hcd : c ≠ d) :
    startsWithChar d s = false := by
  cases s with
  | nil => simp [startsWithChar] at hc
  | cons x xs =>
    have hx : x = c := by simpa [startsWithChar] using hc
    subst hx
    simpa [startsWithChar] using hcd

/-- C1: whenever the basename of the path, after query string and fragment
stripping, is in the No-Cache Set, the Header Policy emits exactly the three
no-cache headers (Cache-Control: no-cache, no-store, must-revalidate;
Pragma: no-cache; Expires: 0) and never the single revalidate header,
regardless of the extension of the basename. -/
theorem no_cache_set_precedence (p : List Char)
    (h : basenameOf (stripQueryFragment p) ∈ NO_CACHE_FILES) :
    policyHeaders p = noCacheHeaders ∧ policyHeaders p ≠ revalidateHeaders := by
  have e : policyHeaders p = noCacheHeaders := by
    unfold policyHeaders
    rw [if_pos h]
  refine ⟨e, ?_⟩
  rw [e]
  decide

/-- Witness for C1 at the concrete path /sw.js. -/
theorem no_cache_set_precedence_witness :
    basenameOf (stripQueryFragment "/sw.js".toList) ∈ NO_CACHE_FILES ∧
    policyHeaders "/sw.js".toList = noCacheHeaders ∧
    policyHeaders "/sw.js".toList ≠ revalidateHeaders :=
  ⟨by decide, no_cache_set_precedence "/sw.js".toList (by decide)⟩

/-- C2: whenever the basename of the stripped path is not in the No-Cache
Set but its extension is in the Revalidate Extension Set, the Header Policy
emits exactly the one header Cache-Control: no-cache. -/
theorem revalidate_extension_rule (p : List Char)
    (h1 : basenameOf (stripQueryFragment p) ∉ NO_CACHE_FILES)
    (h2 : splitextExt (basenameOf (stripQueryFragment p)) ∈ REVALIDATE_EXTENSIONS) :
    policyHeaders p = revalidateHeaders := by
  unfold policyHeaders
  rw [if_neg h1, if_pos h2]

/-- Witness for C2 at the concrete path /app.js. -/
theorem revalidate_extension_rule_witness :
    basenameOf (stripQueryFragment "/app.js".toList) ∉ NO_CACHE_FILES ∧
    splitextExt (basenameOf (stripQueryFragment "/app.js".toList)) ∈ REVALIDATE_EXTENSIONS ∧
    policyHeaders "/app.js".toList = revalidateHeaders :=
  ⟨by decide, by decide, revalidate_extension_rule "/app.js".toList (by decide) (by decide)⟩

/-- C3: whenever the basename of the stripped path is in neither set, the
Header Policy emits zero headers. -/
theorem neither_set_no_headers (p : List Char)
    (h1 : basenameOf (stripQueryFragment p) ∉ NO_CACHE_FILES)
    (h2 : splitextExt (basenameOf (stripQueryFragment p)) ∉ REVALIDATE_EXTENSIONS) :
    policyHeaders p = [] := by
  unfold policyHeaders
  rw [if_neg h1, if_neg h2]

/-- Witness for C3 at the root path, whose basename is the empty string, and
at the concrete path /logo.png. -/
theorem neither_set_no_headers_witness :
    basenameOf (stripQueryFragment "/".toList) = [] ∧
    policyHeaders "/".toList = [] ∧
    policyHeaders "/logo.png".toList = [] :=
  ⟨by decide,
   neither_set_no_headers "/".toList (by decide) (by decide),
   neither_set_no_headers "/logo.png".toList (by decide) (by decide)⟩

/-- C4: appending a question mark or a hash mark followed by any characters
to a path does not change the output of the Header Policy, because the
policy strips from the first question mark, then from the first hash mark,
before extracting the basename. -/
theorem query_fragment_invariance (p s : List Char) :
    policyHeaders (p ++ '?' :: s) = policyHeaders p ∧
    policyHeaders (p ++ '#' :: s) = policyHeaders p := by
  have hq : stripQueryFragment (p ++ '?' :: s) = stripQueryFragment p := by
    unfold stripQueryFragment
    rw [takeBefore_append_cons]
  have hstep : takeBefore '?' ('#' :: s) = '#' :: takeBefore '?' s :=
    takeBefore_cons_ne (by decide) s
  have hh : stripQueryFragment (p ++ '#' :: s) = stripQueryFragment p := by
    unfold stripQueryFragment
    rw [takeBefore_append]
    by_cases hm : ('?' : Char) ∈ p
    · rw [if_pos hm]
    · rw [if_neg hm, hstep, takeBefore_append_cons, takeBefore_of_not_mem hm]
  constructor
  · unfold policyHeaders
    rw [hq]
  · unfold policyHeaders
    rw [hh]

/-- C6: the Header Policy is a pure function of the request path; finalizing
the headers twice for the same path appends the same header block both
times, and the block added on top of the already-buffered headers does not
depend on what was buffered. -/
theorem policy_deterministic (p : List Char) (s t : List (String × String)) :
    end_headers p (end_headers p s) = end_headers p s ++ policyHeaders p ∧
    (end_headers p s).drop s.length = (end_headers p t).drop t.length := by
  refine ⟨rfl, ?_⟩
  unfold end_headers
  rw [List.drop_left, List.drop_left]

/-- C7: when sw.js is missing from the resolved serve directory, main prints
an error naming the marker file, exits with the non-zero status 1, and never
binds a socket; when the marker is present, startup proceeds and the socket
is bound on 0.0.0.0 at the requested port. -/
theorem startup_marker_validation (d : String) (port : Nat) :
    mainStartup false d port =
      [StartupEvent.printLine ("Error: sw.js not found in " ++ d),
       StartupEvent.printLine "Make sure you\x27re serving the GridDown directory.",
       StartupEvent.exitProcess 1] ∧
    (∀ host q, StartupEvent.bindSocket host q ∉ mainStartup false d port) ∧
    StartupEvent.exitProcess 0 ∉ mainStartup false d port ∧
    StartupEvent.bindSocket "0.0.0.0" port ∈ mainStartup true d port := by
  refine ⟨rfl, ?_, ?_, ?_⟩
  · intro host q
    simp [mainStartup]
  · simp [mainStartup]
  · simp [mainStartup]

/-- C8: with verbose mode off, the log filter emits a line exactly when the
written status begins with the character '4' or the character '5', so 2xx
and 3xx lines are suppressed while 4xx and 5xx lines are always logged;
verbose mode restores logging of every line. -/
theorem log_suppression_filter (args : List (List Char)) :
    logEmitted true args = true ∧
    logEmitted false args =
      (startsWithChar '4' (args.getD 1 []) || startsWithChar '5' (args.getD 1 [])) ∧
    (startsWithChar '2' (args.getD 1 []) = true → logEmitted false args = false) ∧
    (startsWithChar '3' (args.getD 1 []) = true → logEmitted false args = false) ∧
    (startsWithChar '4' (args.getD 1 []) = true → logEmitted false args = true) ∧
    (startsWithChar '5' (args.getD 1 []) = true → logEmitted false args = true) := by
  refine ⟨rfl, rfl, ?_, ?_, ?_, ?_⟩
  · intro h
    have h4 := startsWithChar_unique h (by decide : ('2' : Char) ≠ '4')
    have h5 := startsWithChar_unique h (by decide : ('2' : Char) ≠ '5')
    show log_message_emits args = false
    unfold log_message_emits
    rw [h4, h5]
    rfl
  · intro h
    have h4 := startsWithChar_unique h (by decide : ('3' : Char) ≠ '4')
    have h5 := startsWithChar_unique h (by decide : ('3' : Char) ≠ '5')
    show log_message_emits args = false
    unfold log_message_emits
    rw [h4, h5]
    rfl
  · intro h
    show log_message_emits args = true
    unfold log_message_emits
    rw [h]
    rfl
  · intro h
    show log_message_emits args = true
    unfold log_message_emits
    rw [h, Bool.or_true]

/-- Witness for C8: a 200 line is suppressed, a 404 line is logged. -/
theorem log_suppression_filter_witness :
    startsWithChar '2' ((["GET / HTTP/1.1".toList, "200".toList] : List (List Char)).getD 1 []) = true ∧
    logEmitted false ["GET / HTTP/1.1".toList, "200".toList] = false ∧
    startsWithChar '4' ((["GET /x HTTP/1.1".toList, "404".toList] : List (List Char)).getD 1 []) = true ∧
    logEmitted false ["GET /x HTTP/1.1".toList, "404".toList] = true :=
  ⟨by decide,
   (log_suppression_filter ["GET / HTTP/1.1".toList, "200".toList]).2.2.1 (by decide),
   by decide,
   (log_suppression_filter ["GET /x HTTP/1.1".toList, "404".toList]).2.2.2.2.1 (by decide)⟩

/-- C9: the headers the handler injects into a finalized response depend
only on the request path, never on the response status; in particular a 404
for /missing.js still carries Cache-Control: no-cache and a 404 for /sw.js
still carries all three no-cache headers. -/
theorem headers_regardless_of_status (status status2 : Nat)
    (base : List (String × String)) (p : List Char) :
    (handleResponse p status base).2 = (handleResponse p status2 base).2 ∧
    (handleResponse "/missing.js".toList status base).2 = base ++ revalidateHeaders ∧
    (handleResponse "/sw.js".toList status base).2 = base ++ noCacheHeaders := by
  refine ⟨rfl, ?_, ?_⟩
  · have e : policyHeaders "/missing.js".toList = revalidateHeaders := by decide
    unfold handleResponse end_headers
    rw [e]
  · have e : policyHeaders "/sw.js".toList = noCacheHeaders := by decide
    unfold handleResponse end_headers
    rw [e]

/-- C10: a basename made of a leading dot followed by dot-free text has the
empty splitext extension, so such a request matches neither set and receives
no policy headers, even when the text after its last dot would be in the
Revalidate Extension Set. -/
theorem leading_dot_empty_extension (rest : List Char)
    (hd : ('.' : Char) ∉ rest) (hs : ('/' : Char) ∉ rest) :
    splitextExt ('.' :: rest) = [] ∧ policyHeaders ('/' :: '.' :: rest) = [] := by
  refine ⟨splitextExt_dotfile hd hs, ?_⟩
  have hsq : stripQueryFragment ('/' :: '.' :: rest) =
      '/' :: '.' :: stripQueryFragment rest := by
    unfold stripQueryFragment
    rw [takeBefore_cons_ne (by decide), takeBefore_cons_ne (by decide),
        takeBefore_cons_ne (by decide), takeBefore_cons_ne (by decide)]
  have hd2 : ('.' : Char) ∉ stripQueryFragment rest :=
    fun m => hd (mem_of_mem_takeBefore (mem_of_mem_takeBefore m))
  have hs2 : ('/' : Char) ∉ stripQueryFragment rest :=
    fun m => hs (mem_of_mem_takeBefore (mem_of_mem_takeBefore m))
  have hslash : ('/' : Char) ∉ ('.' :: stripQueryFragment rest) := by
    intro m
    rcases List.mem_cons.mp m with m | m
    · exact absurd m (by decide)
    · exact hs2 m
  unfold policyHeaders
  rw [hsq, basenameOf_cons_slash hslash, if_neg dotfile_not_no_cache,
      splitextExt_dotfile hd2 hs2, if_neg (by decide : ([] : List Char) ∉ REVALIDATE_EXTENSIONS)]

/-- Witness for C10 at the concrete path /.js, whose after-last-dot text .js
is in the Revalidate Extension Set and yet gets no headers. -/
theorem leading_dot_empty_extension_witness :
    ('.' : Char) ∉ "js".toList ∧
    splitextExt ('.' :: "js".toList) = [] ∧
    policyHeaders ('/' :: '.' :: "js".toList) = [] ∧
    ('.' :: "js".toList ∈ REVALIDATE_EXTENSIONS) :=
  ⟨by decide,
   (leading_dot_empty_extension "js".toList (by decide) (by decide)).1,
   (leading_dot_empty_extension "js".toList (by decide) (by decide)).2,
   by decide⟩

/-- C5 counterexample: the basename ..js contains two dots, the text after
its last dot is .js, a member of the Revalidate Extension Set, yet the code
computes the empty extension for it and the Header Policy emits no headers
for the path /..js. -/
theorem multi_dot_extension_counterexample :
    2 ≤ "..js".toList.count '.' ∧
    ('/' : Char) ∉ "..js".toList ∧
    splitextExt "..js".toList = [] ∧
    suffixFromLastDot "..js".toList = ".js".toList ∧
    suffixFromLastDot "..js".toList ∈ REVALIDATE_EXTENSIONS ∧
    policyHeaders "/..js".toList = [] := by
  decide

/-- C5 (amended): for a slash-free basename containing multiple dots, at
least one character before its last dot being a character other than a dot,
the extension used for classification is exactly the text after the last
dot, including the dot. -/
theorem multi_dot_extension_amended (b : List Char)
    (_hc : 2 ≤ b.count '.') (hs : ('/' : Char) ∉ b)
    (hnd : ('.' : Char) ∈ b.dropWhile (· == '.')) :
    splitextExt b = suffixFromLastDot b :=
  splitextExt_eq_suffix hs hnd

/-- Witness for the amended C5 at the concrete basename app.min.js, which
classifies as a revalidate-extension file. -/
theorem multi_dot_extension_witness :
    2 ≤ "app.min.js".toList.count '.' ∧
    splitextExt "app.min.js".toList = suffixFromLastDot "app.min.js".toList ∧
    suffixFromLastDot "app.min.js".toList = ".js".toList ∧
    policyHeaders "/app.min.js".toList = revalidateHeaders :=
  ⟨by decide,
   multi_dot_extension_amended "app.min.js".toList (by decide) (by decide) (by decide),
   by decide, by decide⟩

end GridDown

